import Mathlib

/-!
Verification of the trilegal-regulatory-updates watcher scripts.

Each government-portal watcher follows the same fetch / extract /
deduplicate-and-persist pattern.  This file gives a shallow embedding of the
run logic of the watchers cited by the specification claims
(rbi_faq_scraper, npci_watcher, fiu_watcher, irdai_watcher, mha_whatsnew_scraper,
dot_watcher, sebi_multi_section_scraper, saras_watcher, pib_watcher) and proves
or refutes the claimed properties against those embeddings.

Modelling conventions:
- CSV master files are modelled as lists of rows; the delta JSON as a list.
- Network fetches are modelled by their outcomes: a value for a successful
  fetch, a marker for a raised exception.
- Python sets of fingerprints are modelled as lists used only through
  membership.
- hashlib digests are modelled parametrically: every theorem that involves a
  digest quantifies over the hash function, and the byte string fed to the
  hash is computed exactly as the source computes it (UTF-8 encoding of the
  formatted field string).
-/

namespace Watchers

/-! ### UTF-8 encoding, modelling the Python str.encode("utf-8") calls.
Arithmetic formulation of the standard UTF-8 byte layout. -/

def utf8Char (c : Char) : List Nat :=
  if c.toNat < 128 then [c.toNat]
  else if c.toNat < 2048 then [192 + c.toNat / 64, 128 + c.toNat % 64]
  else if c.toNat < 65536 then
    [224 + c.toNat / 4096, 128 + c.toNat / 64 % 64, 128 + c.toNat % 64]
  else
    [240 + c.toNat / 262144, 128 + c.toNat / 4096 % 64, 128 + c.toNat / 64 % 64,
      128 + c.toNat % 64]

def utf8 (s : String) : List Nat :=
  (s.data.map utf8Char).flatten

/-! ### Fingerprint generation.
The sha1 digest itself is external (hashlib); every definition takes the hash
function as a parameter and computes the exact byte string the source feeds
to it.  The World parameter stands for ambient process state (wall clock,
random state, object identities); the translated bodies never consult it,
which is what the determinism claim asserts. -/

structure World where
  clock : Nat
  rngState : Nat
  objectIdentity : Nat

namespace Npci

/-- From src/npci_watcher.py, make_id: the sha1 hex digest of the UTF-8 bytes
of the string title, date and category joined by the pipe character. -/
def make_id (sha1hex : List Nat → String) (w : World)
    (title date category : String) : String :=
  sha1hex (utf8 (title ++ "|" ++ date ++ "|" ++ category))

end Npci

namespace Sebi

/-- From src/sebi_multi_section_scraper.py, make_id: the sha1 hex digest of the
UTF-8 bytes of date, title and link joined by the pipe character. -/
def make_id (sha1hex : List Nat → String) (w : World)
    (date title link : String) : String :=
  sha1hex (utf8 (date ++ "|" ++ title ++ "|" ++ link))

end Sebi

namespace Mha

/-- From src/mha_whatsnew_scraper.py, make_id: the byte string fed to sha1 is
the UTF-8 encoding of title and pdf_link joined by the pipe character. -/
def make_id_input (title pdf_link : String) : List Nat :=
  utf8 (title ++ "|" ++ pdf_link)

def make_id (sha1hex : List Nat → String) (title pdf_link : String) : String :=
  sha1hex (make_id_input title pdf_link)

end Mha

namespace Saras

/-- From src/saras_watcher.py, fetch_latest_updates line 102: the byte string
fed to sha1 is the UTF-8 encoding of the plain concatenation of title and
pdf_link, with no separator between them. -/
def record_id_input (title pdf_link : String) : List Nat :=
  utf8 (title ++ pdf_link)

def record_id (sha1hex : List Nat → String) (title pdf_link : String) : String :=
  sha1hex (record_id_input title pdf_link)

end Saras

/-! ### Run models.
Entries carry the identity fingerprint in the id field; the remaining CSV
columns are collapsed into payload, which suffices because the run logic of
the watchers only ever inspects the id. -/

structure Entry where
  id : String
  payload : String
deriving DecidableEq

namespace Fiu

/-- From src/fiu_watcher.py, load_existing_ids: the id column values of the
master CSV (the empty set when the file is absent). -/
def load_existing_ids (master : List Entry) : List String :=
  master.map (·.id)

/-- From src/fiu_watcher.py, main: the new_entries list comprehension, keeping
scraped items whose id is not among the loaded ids. -/
def new_entries (existing : List String) (scraped : List Entry) : List Entry :=
  scraped.filter (fun e => e.id ∉ existing)

end Fiu

structure RunOut where
  master : List Entry
  deltaFile : List Entry
  masterOpened : Bool
deriving DecidableEq

namespace Fiu

/-- From src/fiu_watcher.py, main: with no new entries the delta JSON is
rewritten to an empty array and main returns without opening the master CSV;
otherwise the new entries are appended to the master and written to the delta
JSON wholesale. -/
def main (master scraped : List Entry) : RunOut :=
  let news := new_entries (load_existing_ids master) scraped
  if news = [] then ⟨master, [], false⟩ else ⟨master ++ news, news, true⟩

end Fiu

namespace Mha

/-- From src/mha_whatsnew_scraper.py, load_existing_ids (same logic as the FIU
watcher, re-implemented per script). -/
def load_existing_ids (master : List Entry) : List String :=
  master.map (·.id)

/-- From src/mha_whatsnew_scraper.py, main: the new_entries list comprehension. -/
def new_entries (existing : List String) (scraped : List Entry) : List Entry :=
  scraped.filter (fun e => e.id ∉ existing)

/-- From src/mha_whatsnew_scraper.py, main: identical control flow to the FIU
watcher main. -/
def main (master scraped : List Entry) : RunOut :=
  let news := new_entries (load_existing_ids master) scraped
  if news = [] then ⟨master, [], false⟩ else ⟨master ++ news, news, true⟩

end Mha

namespace Irdai

def load_existing_ids (master : List Entry) : List String :=
  master.map (·.id)

/-- From src/irdai_watcher.py, main lines 174 to 178: the loop over one
parsed entries of one category appends unseen entries to new_entries and adds
their id to the in-memory set at once. -/
def acceptLoop (existing : List String) : List Entry → List Entry
  | [] => []
  | e :: es =>
      if e.id ∈ existing then acceptLoop existing es
      else e :: acceptLoop (e.id :: existing) es

/-- From src/irdai_watcher.py, main: the loop over the four category pages.
fetch_page is called with no exception handling, so a raised fetch error
(modelled by none) aborts the whole loop; otherwise the accepted entries of
all categories accumulate in order. -/
def fetchLoop (existing : List String) : List (Option (List Entry)) → Option (List Entry)
  | [] => some []
  | none :: _ => none
  | some es :: rest =>
      let acc := acceptLoop existing es
      match fetchLoop (existing ++ acc.map (·.id)) rest with
      | none => none
      | some tail => some (acc ++ tail)

end Irdai

structure BatchOut where
  master : List Entry
  deltaFile : List Entry
  completed : Bool
deriving DecidableEq

namespace Irdai

/-- From src/irdai_watcher.py, main: when the category loop completes, a
non-empty new_entries list is appended to the master CSV and written to the
delta JSON; an empty one leaves both files untouched.  An aborted loop leaves
both files untouched and main raises. -/
def main (master deltaPrior : List Entry) (cats : List (Option (List Entry))) : BatchOut :=
  match fetchLoop (load_existing_ids master) cats with
  | none => ⟨master, deltaPrior, false⟩
  | some news => if news = [] then ⟨master, deltaPrior, true⟩ else ⟨master ++ news, news, true⟩

end Irdai

namespace Pib

/-- From src/pib_watcher.py, main: the loop over the listing items skips known
PRIDs, fetches the detail page of fresh ones (the fetched content is the
function argument), and remembers the accepted id for the rest of the run. -/
def acceptLoop (content : Entry → String) (existing : List String) :
    List Entry → List Entry
  | [] => []
  | e :: es =>
      if e.id ∈ existing then acceptLoop content existing es
      else ⟨e.id, content e⟩ :: acceptLoop content (e.id :: existing) es

end Pib

structure SebiEntry where
  date : String
  title : String
  link : String
deriving DecidableEq

namespace Sebi

/-- From src/sebi_multi_section_scraper.py, main: the (title, link) key pairs
of the master rows; the two normalisers (str.strip().lower() and
normalize_link) are external string transformations passed as parameters.
Rows whose normalised title or link is empty contribute no pair. -/
def existing_pairs (normT normL : String → String) (rows : List SebiEntry) :
    List (String × String) :=
  (rows.filter (fun r => normT r.title ≠ "" ∧ normL r.link ≠ "")).map
    (fun r => (normT r.title, normL r.link))

/-- From src/sebi_multi_section_scraper.py, main: the per-entry loop of one
section; entries whose key pair is known are skipped, fresh entries are
accepted and their pair remembered.  Returns the accepted entries and the
grown pair set. -/
def sectionLoop (normT normL : String → String) (pairs : List (String × String)) :
    List SebiEntry → List SebiEntry × List (String × String)
  | [] => ([], pairs)
  | e :: es =>
      if (normT e.title, normL e.link) ∈ pairs then sectionLoop normT normL pairs es
      else
        let rest := sectionLoop normT normL ((normT e.title, normL e.link) :: pairs) es
        (e :: rest.1, rest.2)

/-- From src/sebi_multi_section_scraper.py, main lines 364 to 385: each
listing load of each section is wrapped in try/except and a failure (modelled by
none) skips only that section; a loaded section is truncated to NUM_ENTRIES
(ten) before the per-entry loop. -/
def sectionsLoop (normT normL : String → String) (pairs : List (String × String)) :
    List (Option (List SebiEntry)) → List SebiEntry
  | [] => []
  | none :: rest => sectionsLoop normT normL pairs rest
  | some es :: rest =>
      let out := sectionLoop normT normL pairs (es.take 10)
      out.1 ++ sectionsLoop normT normL out.2 rest

end Sebi

structure SebiOut where
  master : List SebiEntry
  deltaFile : List SebiEntry
deriving DecidableEq

namespace Sebi

/-- From src/sebi_multi_section_scraper.py, main: after all sections the master
CSV is written as the old rows followed by the accepted rows, and the delta
JSON is replaced with exactly the accepted rows (always written, possibly
empty). -/
def main (normT normL : String → String) (master : List SebiEntry)
    (sections : List (Option (List SebiEntry))) : SebiOut :=
  let news := sectionsLoop normT normL (existing_pairs normT normL master) sections
  ⟨master ++ news, news⟩

end Sebi

/-! ### DoT watcher extraction (src/dot_watcher.py). -/

structure DotRaw where
  hasTr : Bool
  tdCount : Nat
  title : String
  dateText : String
  href : String
deriving DecidableEq

structure DotRow where
  title : String
  publish_date : String
  pdf_url : String
deriving DecidableEq

namespace Dot

/-- From src/dot_watcher.py, scrape_all_rows: every Download anchor of the
listing page is examined; rows lacking a parent tr, having fewer than three
cells, or yielding an empty pdf url are skipped; no count bound is applied.
normalize_date_mmddyyyy and urljoin are external and passed as nd and uj. -/
def scrape_all_rows (nd uj : String → String) (raws : List DotRaw) : List DotRow :=
  (raws.filter (fun r => r.hasTr ∧ 3 ≤ r.tdCount ∧ r.href ≠ "" ∧ uj r.href ≠ "")).map
    (fun r => ⟨r.title, nd r.dateText, uj r.href⟩)

/-- From src/dot_watcher.py, load_seen_ids_and_names_and_next_id: the non-empty
pdf_url values of the master CSV. -/
def load_seen_urls (master : List DotRow) : List String :=
  (master.map (·.pdf_url)).filter (fun u => u ≠ "")

/-- From src/dot_watcher.py, main: the new_raw list comprehension keeping rows
whose pdf_url is unseen. -/
def new_raw (seen : List String) (rows : List DotRow) : List DotRow :=
  rows.filter (fun r => r.pdf_url ∉ seen)

end Dot

/-! ### FIU watcher extraction (src/fiu_watcher.py, scrape_top_10). -/

structure FiuRaw where
  tdCount : Nat
  sr_no : String
  date : String
  title : String
  href : String
deriving DecidableEq

namespace Fiu

/-- From src/fiu_watcher.py, scrape_top_10: the loop over one table body; rows
with fewer than five cells are skipped, and collection returns as soon as ten
entries have been gathered. -/
def tableLoop (collected : List FiuRaw) : List FiuRaw → List FiuRaw
  | [] => collected
  | r :: rs =>
      if 5 ≤ r.tdCount then
        if 10 ≤ (collected ++ [r]).length then collected ++ [r]
        else tableLoop (collected ++ [r]) rs
      else tableLoop collected rs

/-- From src/fiu_watcher.py, scrape_top_10: the outer loop over the year-wise
tables of the page, threading the collected entries. -/
def scrape_top_10 (collected : List FiuRaw) : List (List FiuRaw) → List FiuRaw
  | [] => collected
  | t :: ts =>
      let c := tableLoop collected t
      if 10 ≤ c.length then c else scrape_top_10 c ts

end Fiu

/-! ### RBI FAQ scraper (src/rbi_faq_scraper.py). -/

structure RbiListing where
  faq_id : Nat
  fetchOk : Bool
  title : String
  content : String
deriving DecidableEq

structure RbiRow where
  faq_id : Nat
  title : String
  content_hash : String
deriving DecidableEq

namespace Rbi

/-- Ascending insertion by numeric faq id, modelling sorted(keys, key=int);
the listing keys come from a dict, so ties do not arise. -/
def insertByKey (x : RbiListing) : List RbiListing → List RbiListing
  | [] => [x]
  | y :: ys => if x.faq_id < y.faq_id then x :: y :: ys else y :: insertByKey x ys

def sortByKey : List RbiListing → List RbiListing
  | [] => []
  | x :: xs => insertByKey x (sortByKey xs)

/-- From src/rbi_faq_scraper.py, main: rows are built for the listed faq ids in
ascending numeric order; a failed detail fetch skips that id; content_hash is
the digest of the fetched text (the hash is a parameter). -/
def all_rows (h : String → String) (links : List RbiListing) : List RbiRow :=
  (((sortByKey links).filter (·.fetchOk)).map
    (fun l => ⟨l.faq_id, l.title, h l.content⟩))

/-- From src/rbi_faq_scraper.py, main + save_master_csv: the master CSV is
rewritten from scratch with exactly the rows of this run; the previously persisted
rows are only consulted to classify new_items, never merged back. -/
def master_after (h : String → String) (existingMaster : List RbiRow)
    (links : List RbiListing) : List RbiRow :=
  all_rows h links

end Rbi

/-! ### Persistence as file operations (for the crash-atomicity claim). -/

structure FS where
  master : List String
  tmp : List String
deriving DecidableEq

inductive FileOp where
  | writeMasterLine : String → FileOp
  | openTmpTrunc : FileOp
  | writeTmpLine : String → FileOp
  | replaceTmpMaster : FileOp
deriving DecidableEq

def applyOp (fs : FS) : FileOp → FS
  | .writeMasterLine s => ⟨fs.master ++ [s], fs.tmp⟩
  | .openTmpTrunc => ⟨fs.master, []⟩
  | .writeTmpLine s => ⟨fs.master, fs.tmp ++ [s]⟩
  | .replaceTmpMaster => ⟨fs.tmp, []⟩

def runOps (fs : FS) (ops : List FileOp) : FS :=
  ops.foldl applyOp fs

/-- State of the files after the first k operations, modelling a failure that
interrupts the remaining ones. -/
def crashAt (fs : FS) (ops : List FileOp) (k : Nat) : FS :=
  runOps fs (ops.take k)

namespace Mha

def csvHeader : String :=
  "id,sr_no,title,pdf_link,pdf_filename,file_size,start_date,end_date,created_at"

/-- From src/mha_whatsnew_scraper.py, append_to_master: the lines written, in
order, to the master CSV opened in append mode (header first on first run). -/
def append_lines (writeHeader : Bool) (rows : List String) : List String :=
  (if writeHeader then [csvHeader] else []) ++ rows

def append_ops (writeHeader : Bool) (rows : List String) : List FileOp :=
  (append_lines writeHeader rows).map .writeMasterLine

end Mha

namespace Sebi

def csvHeader : String :=
  "id|date|title|link|pdf_link|pdf_filename|pdf_downloaded|created_at|source_commit|category|error"

/-- From src/sebi_multi_section_scraper.py, write_csv: the header and rows are
written to a freshly truncated temporary file, which is then moved over the
master CSV with os.replace as the final step. -/
def write_csv_ops (rows : List String) : List FileOp :=
  FileOp.openTmpTrunc :: ((csvHeader :: rows).map .writeTmpLine ++ [.replaceTmpMaster])

end Sebi

/-- Eleven well-formed listing rows with distinct hrefs, for exercising the
DoT extraction on a page longer than the ten-entry window used by the sibling
watchers. -/
def dotRawsExample : List DotRaw :=
  [⟨true, 3, "t1", "d", "u1"⟩, ⟨true, 3, "t2", "d", "u2"⟩, ⟨true, 3, "t3", "d", "u3"⟩,
   ⟨true, 3, "t4", "d", "u4"⟩, ⟨true, 3, "t5", "d", "u5"⟩, ⟨true, 3, "t6", "d", "u6"⟩,
   ⟨true, 3, "t7", "d", "u7"⟩, ⟨true, 3, "t8", "d", "u8"⟩, ⟨true, 3, "t9", "d", "u9"⟩,
   ⟨true, 3, "t10", "d", "u10"⟩, ⟨true, 3, "t11", "d", "u11"⟩]

/-! ### Library lemmas about the embedded definitions. -/

theorem char_toNat_lt (c : Char) : c.toNat < 1114112 := by
  have h := c.valid
  simp only [UInt32.isValidChar, Nat.isValidChar] at h
  simp only [Char.toNat]
  omega

theorem char_eq_of_toNat_eq {c d : Char} (h : c.toNat = d.toNat) : c = d := by
  apply Char.eq_of_val_eq
  apply UInt32.ext
  simpa [Char.toNat] using h

theorem utf8Char_ne_nil (c : Char) : utf8Char c ≠ [] := by
  unfold utf8Char
  split_ifs <;> simp

/-- The UTF-8 encoding is a prefix code: a byte stream determines the first
character and the remaining bytes. -/
theorem utf8Char_append_inj {c d : Char} {r s : List Nat}
    (h : utf8Char c ++ r = utf8Char d ++ s) : c = d ∧ r = s := by
  have hc := char_toNat_lt c
  have hd := char_toNat_lt d
  unfold utf8Char at h
  split_ifs at h
  all_goals
    simp only [List.cons_append, List.nil_append, List.cons.injEq] at h
    first
      | (exfalso; omega)
      | exact ⟨char_eq_of_toNat_eq (by omega), by tauto⟩

theorem utf8Char_flatten_inj {l1 l2 : List Char}
    (h : (l1.map utf8Char).flatten = (l2.map utf8Char).flatten) : l1 = l2 := by
  induction l1 generalizing l2 with
  | nil =>
      cases l2 with
      | nil => rfl
      | cons d ds =>
          simp only [List.map_nil, List.flatten_nil, List.map_cons, List.flatten_cons] at h
          exact absurd (List.append_eq_nil.mp h.symm).1 (utf8Char_ne_nil d)
  | cons c cs ih =>
      cases l2 with
      | nil =>
          simp only [List.map_nil, List.flatten_nil, List.map_cons, List.flatten_cons] at h
          exact absurd (List.append_eq_nil.mp h).1 (utf8Char_ne_nil c)
      | cons d ds =>
          simp only [List.map_cons, List.flatten_cons] at h
          obtain ⟨hcd, ht⟩ := utf8Char_append_inj h
          rw [hcd, ih ht]

/-- The UTF-8 encoding of strings is injective. -/
theorem utf8_injective {s t : String} (h : utf8 s = utf8 t) : s = t :=
  String.ext (utf8Char_flatten_inj h)

/-- Splitting a character list at the first occurrence of a separator is
unambiguous when the left part is free of the separator. -/
theorem sep_split {sep : Char} {a1 b1 a2 b2 : List Char}
    (h1 : sep ∉ a1) (h2 : sep ∉ a2)
    (h : a1 ++ sep :: b1 = a2 ++ sep :: b2) : a1 = a2 ∧ b1 = b2 := by
  induction a1 generalizing a2 with
  | nil =>
      cases a2 with
      | nil => simpa using h
      | cons x xs =>
          simp only [List.nil_append, List.cons_append, List.cons.injEq] at h
          exact absurd (h.1 ▸ List.mem_cons_self x xs) h2
  | cons x xs ih =>
      cases a2 with
      | nil =>
          simp only [List.nil_append, List.cons_append, List.cons.injEq] at h
          exact absurd (h.1 ▸ List.mem_cons_self x xs) h1
      | cons y ys =>
          simp only [List.cons_append, List.cons.injEq] at h
          have hx : sep ∉ xs := fun hm => h1 (List.mem_cons_of_mem x hm)
          have hy : sep ∉ ys := fun hm => h2 (List.mem_cons_of_mem y hm)
          obtain ⟨he, ht⟩ := ih hx hy h.2
          exact ⟨by rw [h.1, he], ht⟩

/-- Distinctness of pipe-joined identity fields: when the first field contains
no pipe character, the joined byte strings of different field pairs differ. -/
theorem mha_make_id_input_inj {t1 l1 t2 l2 : String}
    (hp1 : '|' ∉ t1.data) (hp2 : '|' ∉ t2.data)
    (h : Mha.make_id_input t1 l1 = Mha.make_id_input t2 l2) : t1 = t2 ∧ l1 = l2 := by
  have hs : t1 ++ "|" ++ l1 = t2 ++ "|" ++ l2 := utf8_injective h
  have hpipe : ("|" : String).data = ['|'] := rfl
  have hd : t1.data ++ '|' :: l1.data = t2.data ++ '|' :: l2.data := by
    have hcongr := congrArg String.data hs
    simpa [String.data_append, hpipe] using hcongr
  obtain ⟨ha, hb⟩ := sep_split hp1 hp2 hd
  exact ⟨String.ext ha, String.ext hb⟩

theorem acceptLoop_sublist (existing : List String) (es : List Entry) :
    List.Sublist (Irdai.acceptLoop existing es) es := by
  induction es generalizing existing with
  | nil => simp [Irdai.acceptLoop]
  | cons e es ih =>
      simp only [Irdai.acceptLoop]
      split_ifs with h
      · exact (ih existing).cons e
      · exact (ih (e.id :: existing)).cons₂ e

theorem acceptLoop_id_not_mem (existing : List String) (es : List Entry) (x : String)
    (hx : x ∈ (Irdai.acceptLoop existing es).map (·.id)) : x ∉ existing := by
  induction es generalizing existing with
  | nil => simp [Irdai.acceptLoop] at hx
  | cons e es ih =>
      simp only [Irdai.acceptLoop] at hx
      split_ifs at hx with h
      · exact ih existing hx
      · simp only [List.map_cons, List.mem_cons] at hx
        rcases hx with rfl | hx
        · exact h
        · intro hmem
          exact ih (e.id :: existing) hx (List.mem_cons_of_mem _ hmem)

theorem acceptLoop_ids_nodup (existing : List String) (es : List Entry) :
    ((Irdai.acceptLoop existing es).map (·.id)).Nodup := by
  induction es generalizing existing with
  | nil => simp [Irdai.acceptLoop]
  | cons e es ih =>
      simp only [Irdai.acceptLoop]
      split_ifs with h
      · exact ih existing
      · simp only [List.map_cons, List.nodup_cons]
        exact ⟨fun hmem => acceptLoop_id_not_mem _ _ _ hmem (List.mem_cons_self _ _),
          ih (e.id :: existing)⟩

theorem pib_acceptLoop_sublist (content : Entry → String) (existing : List String)
    (es : List Entry) :
    List.Sublist (Pib.acceptLoop content existing es)
      (es.map fun e => (⟨e.id, content e⟩ : Entry)) := by
  induction es generalizing existing with
  | nil => simp [Pib.acceptLoop]
  | cons e es ih =>
      simp only [Pib.acceptLoop, List.map_cons]
      split_ifs with h
      · exact (ih existing).cons _
      · exact (ih (e.id :: existing)).cons₂ _

theorem pib_acceptLoop_id_not_mem (content : Entry → String) (existing : List String)
    (es : List Entry) (x : String)
    (hx : x ∈ (Pib.acceptLoop content existing es).map (·.id)) : x ∉ existing := by
  induction es generalizing existing with
  | nil => simp [Pib.acceptLoop] at hx
  | cons e es ih =>
      simp only [Pib.acceptLoop] at hx
      split_ifs at hx with h
      · exact ih existing hx
      · simp only [List.map_cons, List.mem_cons] at hx
        rcases hx with rfl | hx
        · exact h
        · intro hmem
          exact ih (e.id :: existing) hx (List.mem_cons_of_mem _ hmem)

theorem pib_acceptLoop_ids_nodup (content : Entry → String) (existing : List String)
    (es : List Entry) :
    ((Pib.acceptLoop content existing es).map (·.id)).Nodup := by
  induction es generalizing existing with
  | nil => simp [Pib.acceptLoop]
  | cons e es ih =>
      simp only [Pib.acceptLoop]
      split_ifs with h
      · exact ih existing
      · simp only [List.map_cons, List.nodup_cons]
        exact ⟨fun hmem => pib_acceptLoop_id_not_mem _ _ _ _ hmem (List.mem_cons_self _ _),
          ih (e.id :: existing)⟩

theorem tableLoop_eq (rows : List FiuRaw) : ∀ collected : List FiuRaw,
    collected.length < 10 →
    Fiu.tableLoop collected rows =
      (collected ++ rows.filter (fun r => 5 ≤ r.tdCount)).take 10 := by
  induction rows with
  | nil =>
      intro collected h
      simp only [Fiu.tableLoop, List.filter_nil, List.append_nil]
      exact (List.take_of_length_le (Nat.le_of_lt h)).symm
  | cons r rs ih =>
      intro collected h
      simp only [Fiu.tableLoop]
      split_ifs with hv hl
      · rw [List.filter_cons_of_pos (by simpa using hv)]
        have hlen : (collected ++ [r]).length = 10 := by
          simp only [List.length_append, List.length_singleton] at hl ⊢
          omega
        rw [List.append_cons collected r (List.filter _ rs),
          List.take_append_of_le_length (le_of_eq hlen.symm),
          List.take_of_length_le (le_of_eq hlen)]
      · rw [List.filter_cons_of_pos (by simpa using hv)]
        have h' : (collected ++ [r]).length < 10 := by
          simp only [List.length_append, List.length_singleton] at hl ⊢
          omega
        rw [ih _ h', List.append_cons collected r (List.filter _ rs)]
      · rw [List.filter_cons_of_neg (by simpa using hv)]
        exact ih _ h

theorem scrape_top_10_eq (tables : List (List FiuRaw)) : ∀ collected : List FiuRaw,
    collected.length < 10 →
    Fiu.scrape_top_10 collected tables =
      (collected ++ tables.flatten.filter (fun r => 5 ≤ r.tdCount)).take 10 := by
  induction tables with
  | nil =>
      intro collected h
      simp only [Fiu.scrape_top_10, List.flatten_nil, List.filter_nil, List.append_nil]
      exact (List.take_of_length_le (Nat.le_of_lt h)).symm
  | cons t ts ih =>
      intro collected h
      simp only [Fiu.scrape_top_10, List.flatten_cons, List.filter_append,
        ← List.append_assoc]
      rw [tableLoop_eq t collected h]
      split_ifs with hl
      · have hlen : 10 ≤ (collected ++ t.filter (fun r => 5 ≤ r.tdCount)).length := by
          rw [List.length_take] at hl
          omega
        rw [List.take_append_of_le_length hlen]
      · have hlt : (collected ++ t.filter (fun r => 5 ≤ r.tdCount)).length < 10 := by
          rw [List.length_take] at hl
          omega
        rw [List.take_of_length_le (Nat.le_of_lt hlt)]
        exact ih _ hlt

theorem runOps_writeMasterLines (ls : List String) : ∀ m t : List String,
    runOps ⟨m, t⟩ (ls.map FileOp.writeMasterLine) = ⟨m ++ ls, t⟩ := by
  induction ls with
  | nil =>
      intro m t
      simp [runOps]
  | cons s ls ih =>
      intro m t
      simp only [List.map_cons, runOps, List.foldl_cons]
      have hstep : applyOp (⟨m, t⟩ : FS) (.writeMasterLine s) = (⟨m ++ [s], t⟩ : FS) := rfl
      rw [hstep]
      have h2 := ih (m ++ [s]) t
      simp only [runOps] at h2
      rw [h2, List.append_assoc]
      rfl

theorem runOps_writeTmpLines (ls : List String) : ∀ m t : List String,
    runOps ⟨m, t⟩ (ls.map FileOp.writeTmpLine) = ⟨m, t ++ ls⟩ := by
  induction ls with
  | nil =>
      intro m t
      simp [runOps]
  | cons s ls ih =>
      intro m t
      simp only [List.map_cons, runOps, List.foldl_cons]
      have hstep : applyOp (⟨m, t⟩ : FS) (.writeTmpLine s) = (⟨m, t ++ [s]⟩ : FS) := rfl
      rw [hstep]
      have h2 := ih m (t ++ [s])
      simp only [runOps] at h2
      rw [h2, List.append_assoc]
      rfl

theorem mha_crashAt_eq (writeHeader : Bool) (old tmp0 rows : List String) (k : Nat) :
    crashAt ⟨old, tmp0⟩ (Mha.append_ops writeHeader rows) k =
      ⟨old ++ (Mha.append_lines writeHeader rows).take k, tmp0⟩ := by
  unfold crashAt Mha.append_ops
  rw [← List.map_take, runOps_writeMasterLines]

theorem sebi_crashAt_master (old tmp0 rows : List String) (k : Nat) :
    (crashAt ⟨old, tmp0⟩ (Sebi.write_csv_ops rows) k).master = old ∨
      (crashAt ⟨old, tmp0⟩ (Sebi.write_csv_ops rows) k).master = Sebi.csvHeader :: rows := by
  unfold crashAt Sebi.write_csv_ops runOps
  cases k with
  | zero => left; rfl
  | succ j =>
      rw [List.take_succ_cons, List.foldl_cons]
      have hstep : applyOp (⟨old, tmp0⟩ : FS) FileOp.openTmpTrunc = (⟨old, []⟩ : FS) := rfl
      rw [hstep]
      by_cases hj : j ≤ ((Sebi.csvHeader :: rows).map FileOp.writeTmpLine).length
      · left
        rw [List.take_append_of_le_length hj, ← List.map_take]
        have h2 := runOps_writeTmpLines ((Sebi.csvHeader :: rows).take j) old []
        simp only [runOps] at h2
        rw [h2]
      · right
        push_neg at hj
        rw [List.take_of_length_le
            (by simp only [List.length_append, List.length_singleton]; omega),
          List.foldl_append]
        have h2 := runOps_writeTmpLines (Sebi.csvHeader :: rows) old []
        simp only [runOps] at h2
        rw [h2]
        rfl

theorem sectionsLoop_skip_failures (normT normL : String → String)
    (sections : List (Option (List SebiEntry))) : ∀ pairs : List (String × String),
    Sebi.sectionsLoop normT normL pairs sections =
      Sebi.sectionsLoop normT normL pairs ((sections.reduceOption).map some) := by
  induction sections with
  | nil => intro pairs; rfl
  | cons s rest ih =>
      intro pairs
      cases s with
      | none =>
          simp only [Sebi.sectionsLoop, List.reduceOption_cons_of_none]
          exact ih pairs
      | some es =>
          simp only [Sebi.sectionsLoop, List.reduceOption_cons_of_some, List.map_cons]
          rw [ih]
          rfl

/-! ### Claim theorems. -/

/-- Claim C1, counterexample: a completed rbi_faq_scraper run whose listing no
longer shows a previously stored FAQ rewrites the master CSV without that row,
so the master store shrinks from one entry to zero and the old entry is gone. -/
theorem c1_rbi_master_can_shrink :
    Rbi.master_after id [⟨1, "t", "x"⟩] [] = [] ∧
    ((⟨1, "t", "x"⟩ : RbiRow) ∈ ([⟨1, "t", "x"⟩] : List RbiRow)) ∧
    ¬ ((⟨1, "t", "x"⟩ : RbiRow) ∈ Rbi.master_after id [⟨1, "t", "x"⟩] []) :=
  ⟨rfl, by decide, by decide⟩

/-- Claim C1, amended: watchers that persist through append (fiu, mha, and
irdai on a completed run) produce a master equal to the old master followed by
the new entries of this run, so no prior entry is lost and the store never shrinks;
the rbi_faq_scraper is excluded because it rewrites the master from the
current listing alone. -/
theorem c1_append_watchers_never_shrink :
    (∀ master scraped : List Entry,
        (Fiu.main master scraped).master
          = master ++ Fiu.new_entries (Fiu.load_existing_ids master) scraped) ∧
    (∀ master scraped : List Entry,
        (Mha.main master scraped).master
          = master ++ Mha.new_entries (Mha.load_existing_ids master) scraped) ∧
    (∀ (master deltaPrior : List Entry) (cats : List (Option (List Entry))),
        ∃ appended, (Irdai.main master deltaPrior cats).master = master ++ appended) := by
  refine ⟨?_, ?_, ?_⟩
  · intro master scraped
    simp only [Fiu.main]
    split_ifs with h
    · rw [h, List.append_nil]
    · rfl
  · intro master scraped
    simp only [Mha.main]
    split_ifs with h
    · rw [h, List.append_nil]
    · rfl
  · intro m d cats
    unfold Irdai.main
    cases hfl : Irdai.fetchLoop (Irdai.load_existing_ids m) cats with
    | none => exact ⟨[], (List.append_nil m).symm⟩
    | some news =>
        show ∃ appended,
          (if news = [] then (⟨m, d, true⟩ : BatchOut)
            else ⟨m ++ news, news, true⟩).master = m ++ appended
        split_ifs with h
        · exact ⟨[], (List.append_nil m).symm⟩
        · exact ⟨news, rfl⟩

/-- Claim C2, counterexample: the fiu_watcher filters candidates only against
the ids loaded at run start, so a run whose extraction yields the same
fingerprint twice accepts both copies: the delta holds two entries with equal
fingerprints and both rows are appended to the master. -/
theorem c2_fiu_duplicate_candidates_both_accepted :
    (Fiu.main [] [⟨"i", "x"⟩, ⟨"i", "x"⟩]).deltaFile = [⟨"i", "x"⟩, ⟨"i", "x"⟩] ∧
    (Fiu.main [] [⟨"i", "x"⟩, ⟨"i", "x"⟩]).master = [⟨"i", "x"⟩, ⟨"i", "x"⟩] ∧
    ¬ (((Fiu.main [] [⟨"i", "x"⟩, ⟨"i", "x"⟩]).deltaFile.map (·.id)).Nodup) := by
  refine ⟨by decide, by decide, by decide⟩

/-- Claim C2, amended: the irdai_watcher and pib_watcher remember each accepted
fingerprint for the remainder of the run (they add it to the in-memory set in
the acceptance loop), so their run delta never holds two entries with equal
fingerprints; the npci, fiu, mha and saras watchers filter only against the
ledger loaded at run start and lack this guarantee. -/
theorem c2_remember_watchers_nodup :
    (∀ (existing : List String) (es : List Entry),
        ((Irdai.acceptLoop existing es).map (·.id)).Nodup) ∧
    (∀ (content : Entry → String) (existing : List String) (es : List Entry),
        ((Pib.acceptLoop content existing es).map (·.id)).Nodup) :=
  ⟨fun existing es => acceptLoop_ids_nodup existing es,
    fun content existing es => pib_acceptLoop_ids_nodup content existing es⟩

/-- Claim C3, counterexample: in the irdai_watcher a fetch error on the second
category page aborts the whole run, so the sibling category that had already
succeeded with a fresh entry is not persisted: the master is unchanged and the
accepted entry is lost. -/
theorem c3_irdai_fetch_error_aborts_batch :
    Irdai.main [] [] [some [⟨"a", "x"⟩], none] = ⟨[], [], false⟩ ∧
    (⟨"a", "x"⟩ : Entry) ∉ (Irdai.main [] [] [some [⟨"a", "x"⟩], none]).master := by
  refine ⟨by decide, by decide⟩

/-- Claim C3, amended: the sebi_multi_section_scraper isolates per-section
failures: a run behaves exactly as if the failed sections were absent, and
every accepted entry of the surviving sections is persisted, the final master
being the old rows followed by the full delta; the irdai_watcher lacks this
isolation. -/
theorem c3_sebi_failure_isolation :
    ∀ (normT normL : String → String) (master : List SebiEntry)
      (sections : List (Option (List SebiEntry))),
      Sebi.main normT normL master sections
        = Sebi.main normT normL master ((sections.reduceOption).map some) ∧
      (Sebi.main normT normL master sections).master
        = master ++ (Sebi.main normT normL master sections).deltaFile := by
  intro normT normL master sections
  constructor
  · simp only [Sebi.main]
    rw [sectionsLoop_skip_failures]
  · rfl

/-- Claim C4, counterexample: an irdai_watcher run that accepts nothing new
does not rewrite the delta JSON, so the delta left by a prior run survives as
a stale, non-empty leftover instead of being overwritten with an empty list. -/
theorem c4_irdai_stale_delta :
    (Irdai.main [⟨"a", "x"⟩] [⟨"stale", "s"⟩] [some [⟨"a", "y"⟩]]).deltaFile
      = [⟨"stale", "s"⟩] ∧
    ([⟨"stale", "s"⟩] : List Entry) ≠ [] := by
  refine ⟨by decide, by decide⟩

/-- Claim C4, amended: the fiu and mha watchers replace the delta output
wholesale on every completed run, writing exactly the new entries of this run and
in particular an empty list when nothing is new; the irdai_watcher instead
leaves the previous delta file untouched whenever the completed run accepts
nothing, and in every watcher a run aborted by a fetch error writes no delta
at all. -/
theorem c4_delta_replacement :
    (∀ master scraped : List Entry,
        (Fiu.main master scraped).deltaFile
          = Fiu.new_entries (Fiu.load_existing_ids master) scraped) ∧
    (∀ master scraped : List Entry,
        (Mha.main master scraped).deltaFile
          = Mha.new_entries (Mha.load_existing_ids master) scraped) ∧
    (∀ (master deltaPrior : List Entry) (cats : List (Option (List Entry))),
        Irdai.fetchLoop (Irdai.load_existing_ids master) cats = some [] →
        (Irdai.main master deltaPrior cats).deltaFile = deltaPrior) := by
  refine ⟨?_, ?_, ?_⟩
  · intro master scraped
    simp only [Fiu.main]
    split_ifs with h
    · exact h.symm
    · rfl
  · intro master scraped
    simp only [Mha.main]
    split_ifs with h
    · exact h.symm
    · rfl
  · intro m d cats h
    unfold Irdai.main
    rw [h]
    rfl

/-- Claim C4, witness: a concrete irdai run in which the only candidate is
already known completes, accepts nothing, and leaves the prior delta file in
place. -/
theorem c4_delta_replacement_witness :
    (Irdai.main [⟨"a", "x"⟩] [⟨"p", "q"⟩] [some [⟨"a", "z"⟩]]).deltaFile = [⟨"p", "q"⟩] :=
  c4_delta_replacement.2.2 [⟨"a", "x"⟩] [⟨"p", "q"⟩] [some [⟨"a", "z"⟩]] (by decide)

/-- Claim C5, confirmed: the npci and sebi fingerprint functions compute the
digest of a byte string built only from the given field values, so two
evaluations agree regardless of ambient process state (wall clock, random
state, object identity), for every choice of digest function. -/
theorem c5_fingerprint_deterministic :
    ∀ (sha1hex : List Nat → String) (w w' : World) (f1 f2 f3 : String),
      Npci.make_id sha1hex w f1 f2 f3 = Npci.make_id sha1hex w' f1 f2 f3 ∧
      Sebi.make_id sha1hex w f1 f2 f3 = Sebi.make_id sha1hex w' f1 f2 f3 :=
  fun _ _ _ _ _ _ => ⟨rfl, rfl⟩

/-- Claim C6, counterexample: the dot_watcher applies no candidate bound: a
listing page with eleven valid rows yields eleven scraped rows, all eleven
enter the run delta when unseen, and in particular the row beyond a ten-entry
window is examined and included. -/
theorem c6_dot_unbounded_candidates :
    (Dot.scrape_all_rows id id dotRawsExample).length = 11 ∧
    (Dot.new_raw [] (Dot.scrape_all_rows id id dotRawsExample)).length = 11 ∧
    (Dot.new_raw [] (Dot.scrape_all_rows id id dotRawsExample)).drop 10
      = [⟨"t11", "d", "u11"⟩] := by
  refine ⟨by decide, by decide, by decide⟩

/-- Claim C6, amended: the fiu_watcher honours the bounded window: its
extraction returns exactly the first ten valid rows in page order, so no
candidate beyond the bound is ever fingerprinted, persisted or included in the
delta; the dot_watcher has no such bound. -/
theorem c6_fiu_bounded_window :
    (∀ tables : List (List FiuRaw),
        Fiu.scrape_top_10 [] tables
          = (tables.flatten.filter (fun r => 5 ≤ r.tdCount)).take 10) ∧
    (∀ tables : List (List FiuRaw), (Fiu.scrape_top_10 [] tables).length ≤ 10) := by
  constructor
  · intro tables
    have h := scrape_top_10_eq tables [] (by simp)
    simpa using h
  · intro tables
    have h := scrape_top_10_eq tables [] (by simp)
    simp only [List.nil_append] at h
    rw [h, List.length_take]
    exact Nat.min_le_left _ _

/-- Claim C7, counterexample: the mha in-place append interrupted after one of
two rows leaves the master CSV in a state that is neither the old contents nor
the completed append, an outcome a write-then-rename mechanism can never
produce. -/
theorem c7_mha_append_not_atomic :
    ¬ ((crashAt ⟨["r1"], []⟩ (Mha.append_ops false ["r2", "r3"]) 1).master = ["r1"] ∨
        (crashAt ⟨["r1"], []⟩ (Mha.append_ops false ["r2", "r3"]) 1).master
          = ["r1", "r2", "r3"]) := by
  decide

/-- Claim C7, amended: a failure partway through the mha append leaves the
previously persisted lines intact as an unmodified prefix (only a suffix of
the new lines may be missing), though the append is in place rather than
write-then-rename; the sebi write_csv is write-then-rename and a crash leaves
the master either untouched or fully rewritten. -/
theorem c7_persistence_crash_behavior :
    (∀ (writeHeader : Bool) (old tmp0 rows : List String) (k : Nat),
        (crashAt ⟨old, tmp0⟩ (Mha.append_ops writeHeader rows) k).master
          = old ++ (Mha.append_lines writeHeader rows).take k) ∧
    (∀ (old tmp0 rows : List String) (k : Nat),
        (crashAt ⟨old, tmp0⟩ (Sebi.write_csv_ops rows) k).master = old ∨
          (crashAt ⟨old, tmp0⟩ (Sebi.write_csv_ops rows) k).master
            = Sebi.csvHeader :: rows) := by
  constructor
  · intro writeHeader old tmp0 rows k
    rw [mha_crashAt_eq]
  · exact sebi_crashAt_master

/-- Claim C8, counterexample: the saras_watcher concatenates title and link
with no separator before hashing, so the distinct field tuples (ab, c) and
(a, bc) feed the identical byte string to the hash. -/
theorem c8_saras_hash_input_collision :
    Saras.record_id_input "ab" "c" = Saras.record_id_input "a" "bc" ∧
    (("ab", "c") : String × String) ≠ (("a", "bc") : String × String) :=
  ⟨rfl, by decide⟩

/-- Claim C8, amended: the mha fingerprint joins its identity fields with a
pipe separator, so whenever the title fields are free of the separator, two
distinct field tuples feed distinct byte strings to the hash; the
saras_watcher omits the separator and loses this property. -/
theorem c8_separator_injective :
    ∀ t1 l1 t2 l2 : String, '|' ∉ t1.data → '|' ∉ t2.data →
      (t1, l1) ≠ (t2, l2) →
      Mha.make_id_input t1 l1 ≠ Mha.make_id_input t2 l2 := by
  intro t1 l1 t2 l2 hp1 hp2 hne h
  obtain ⟨ht, hl⟩ := mha_make_id_input_inj hp1 hp2 h
  exact hne (by rw [ht, hl])

/-- Claim C8, witness: concrete distinct pipe-free tuples produce distinct hash
inputs. -/
theorem c8_separator_injective_witness :
    Mha.make_id_input "a" "b" ≠ Mha.make_id_input "a" "c" :=
  c8_separator_injective "a" "b" "a" "c" (by decide) (by decide) (by decide)

/-- Claim C9, confirmed: when extraction yields three fresh candidates with
distinct fingerprints, the irdai acceptance loop returns exactly those three
in extraction order; in general both the irdai and pib acceptance loops return
a subsequence of the extracted candidates, preserving relative extraction
order in the run delta. -/
theorem c9_order_preservation :
    (∀ (existing : List String) (a b c : Entry),
        a.id ∉ existing → b.id ∉ existing → c.id ∉ existing →
        b.id ≠ a.id → c.id ≠ a.id → c.id ≠ b.id →
        Irdai.acceptLoop existing [a, b, c] = [a, b, c]) ∧
    (∀ (existing : List String) (es : List Entry),
        List.Sublist (Irdai.acceptLoop existing es) es) ∧
    (∀ (content : Entry → String) (existing : List String) (es : List Entry),
        List.Sublist (Pib.acceptLoop content existing es)
          (es.map fun e => (⟨e.id, content e⟩ : Entry))) := by
  refine ⟨?_, acceptLoop_sublist, pib_acceptLoop_sublist⟩
  intro existing a b c ha hb hc hba hca hcb
  simp [Irdai.acceptLoop, List.mem_cons, ha, hb, hc, hba, hca, hcb]

/-- Claim C9, witness: three concrete fresh candidates come back in extraction
order. -/
theorem c9_order_preservation_witness :
    Irdai.acceptLoop [] [⟨"a", "1"⟩, ⟨"b", "2"⟩, ⟨"c", "3"⟩]
      = [⟨"a", "1"⟩, ⟨"b", "2"⟩, ⟨"c", "3"⟩] :=
  c9_order_preservation.1 [] ⟨"a", "1"⟩ ⟨"b", "2"⟩ ⟨"c", "3"⟩ (by decide) (by decide)
    (by decide) (by decide) (by decide) (by decide)

/-- Claim C10, confirmed: when every scraped candidate of a fiu or mha run is
already in the loaded ledger, the run rewrites the delta to the empty list,
never opens the master store for writing, and leaves the master contents
unchanged. -/
theorem c10_no_new_frame :
    ∀ master scraped : List Entry,
      (∀ e ∈ scraped, e.id ∈ Fiu.load_existing_ids master) →
      Fiu.main master scraped = ⟨master, [], false⟩ ∧
      Mha.main master scraped = ⟨master, [], false⟩ := by
  intro master scraped h
  have hnew : Fiu.new_entries (Fiu.load_existing_ids master) scraped = [] := by
    simp only [Fiu.new_entries]
    rw [List.filter_eq_nil_iff]
    intro e he
    simp [h e he]
  have hnew2 : Mha.new_entries (Mha.load_existing_ids master) scraped = [] := hnew
  constructor
  · simp [Fiu.main, hnew]
  · simp [Mha.main, hnew2]

/-- Claim C10, witness: a concrete run whose single candidate is already known
leaves the master untouched and writes an empty delta. -/
theorem c10_no_new_frame_witness :
    Fiu.main [⟨"a", "x"⟩] [⟨"a", "y"⟩] = ⟨[⟨"a", "x"⟩], [], false⟩ ∧
    Mha.main [⟨"a", "x"⟩] [⟨"a", "y"⟩] = ⟨[⟨"a", "x"⟩], [], false⟩ :=
  c10_no_new_frame [⟨"a", "x"⟩] [⟨"a", "y"⟩] (by decide)

end Watchers
